import Mathlib

/-!
# DataVault: local metadata index and repository coordinator, formalised

A shallow embedding of the DataVault repository's core modules:

* `src/database` (class `Database`): the SQLite-backed record store —
  `insertRecord` (INSERT OR REPLACE), `queryRecords` (filter / sort /
  cursor-paginate with `LIMIT limit+1`), modelled as pure functions on a
  list of rows (the table, in insertion order).
* `src/repository` (class `AIRepository`): the coordinator —
  `uploadFile`, `batchUpload`, `queryData`, `getLatestVersion`,
  `getVersions`.  External I/O (the Irys SDK, the filesystem, SQLite
  run-failures) is passed in as explicit oracle arguments of `Except`
  type; `Date.now()` is passed in as an explicit clock argument.
* `src/irys/uploader` (class `IrysUploader`): `uploadFile`, `batchUpload`
  (chunking, `Promise.all`, per-item rethrow), `prepareTags`.
* `src/irys/query` (class `IrysQuery`): `buildFilters`, the GraphQL
  filter object sent to the remote index, together with its documented
  matching semantics.

JSON texts are modelled by the JavaScript value they encode (`JsValue`):
`JSON.stringify` is the constructor `JsValue.strJson` and `JSON.parse` is
its partial inverse.  This uses only that `stringify` is injective and
that `parse` inverts it; a SQLite `TEXT` column holding a JSON text is
represented by the encoded value itself.  `json_extract(tags, '$.f')`
returns the field of a JSON object and `NULL` (here `none`) when the
stored document is a string scalar — which is exactly what happens to
rows written through the coordinator's upload path, whose tags are
stringified twice.
-/

namespace DataVault

/-- The seven-field metadata object (`DatasetMetadata` in `src/types`):
all fields are strings. -/
structure DatasetMetadata where
  app : String
  contentType : String
  datasetName : String
  split : String
  version : String
  owner : String
  createdAt : String
deriving DecidableEq

/-- A JavaScript value appearing in the tags pipeline: an ordinary string
literal, a string produced by `JSON.stringify` (represented by the value
it encodes), or a metadata object. -/
inductive JsValue where
  | strLit : String → JsValue
  | strJson : JsValue → JsValue
  | meta : DatasetMetadata → JsValue
deriving DecidableEq

/-- `JSON.stringify`: produces the JSON text of a value, itself a JS
string.  Modelled symbolically by the value it encodes. -/
def jsonStringify (v : JsValue) : JsValue := JsValue.strJson v

/-- `JSON.parse` applied to a JS string: inverts `jsonStringify`.
Parsing a string that is not a `stringify` image, or a non-string, is
modelled as failure (`JSON.parse` throws); every string parsed in the
repository's flows is a `stringify` image. -/
def jsonParse : JsValue → Option JsValue
  | JsValue.strJson v => some v
  | _ => none

/-- `typeof v === 'string'`. -/
def JsValue.isString : JsValue → Bool
  | strLit _ => true
  | strJson _ => true
  | meta _ => false

/-- The six indexed tag fields plus `createdAt` (the JSON keys used in
`json_extract(tags, '$.…')` and in `IrysQuery.extractTags`). -/
inductive MetaField where
  | app | contentType | datasetName | split | version | owner | createdAt
deriving DecidableEq

/-- Field projection of a metadata object. -/
def DatasetMetadata.fieldVal (m : DatasetMetadata) : MetaField → String
  | .app => m.app
  | .contentType => m.contentType
  | .datasetName => m.datasetName
  | .split => m.split
  | .version => m.version
  | .owner => m.owner
  | .createdAt => m.createdAt

/-- SQLite `json_extract(doc, '$.f')` on a stored tags document: a field
of a JSON object; `NULL` when the document is a string scalar (the
double-stringified case) — paths into non-objects yield `NULL`. -/
def jsonExtract (v : JsValue) (f : MetaField) : Option String :=
  match v with
  | .meta m => some (m.fieldVal f)
  | _ => none

/-- A row of the `datasets` table (= `DatabaseRecord` in `src/types`).
The `tags` column is `TEXT`; it is represented by the `JsValue` its JSON
text encodes (see the file header).  `timestamp` is epoch milliseconds
(`INTEGER`), always produced from `Date.now()`, hence a `Nat`. -/
structure DbRecord where
  id : String
  transactionId : String
  timestamp : Nat
  tags : JsValue
  receipt : Option String
  createdAt : String
deriving DecidableEq

/-- `Database.insertRecord`: `INSERT OR REPLACE INTO datasets …`.
Rows conflicting on the `id` primary key or the `transaction_id` UNIQUE
constraint are deleted and the new row is appended; the stored `tags`
column text is `JSON.stringify(record.tags)`, whose decoded value is
`record.tags` itself, so the row is stored verbatim.  The statement does
not error on conflicts. -/
def insertRecord (db : List DbRecord) (r : DbRecord) : List DbRecord :=
  db.filter (fun row => !decide (row.id = r.id ∨ row.transactionId = r.transactionId)) ++ [r]

/-- JS truthiness of an optional string (`undefined` and `""` are falsy). -/
def jsTruthy : Option String → Bool
  | some s => !s.isEmpty
  | none => false

/-- JS `x || d` for an optional number (`undefined` and `0` are falsy). -/
def jsNumOr (n : Option Nat) (d : Nat) : Nat :=
  match n with
  | some m => if m = 0 then d else m
  | none => d

/-- The decimal digit character for `d < 10` (JS number printing). -/
def digitChar (d : Nat) : Char := Char.ofNat (48 + d)

/-- Reference form of the decimal digit list, most significant first. -/
def natToDigitsRef (n : Nat) : List Char :=
  if _h : n < 10 then [digitChar n]
  else natToDigitsRef (n / 10) ++ [digitChar (n % 10)]
termination_by n
decreasing_by
  exact Nat.div_lt_self (Nat.pos_of_ne_zero (by omega)) (by omega)

/-- Fuelled digit accumulation (structural, so that concrete cursors
evaluate by kernel reduction). -/
def natToDigitsAux : Nat → Nat → List Char → List Char
  | _, 0, acc => acc
  | 0, _, acc => acc
  | fuel + 1, n, acc => natToDigitsAux fuel (n / 10) (digitChar (n % 10) :: acc)

/-- Decimal digits of a natural number, most significant first
(`Number.prototype.toString` on an integer-valued timestamp). -/
def natToDigits (n : Nat) : List Char :=
  if n = 0 then ['0'] else natToDigitsAux n n []

/-- `x.toString()` for the integer `x`. -/
def natToString (n : Nat) : String := String.mk (natToDigits n)

/-- Accumulator pass of `parseInt`: consume leading decimal digits. -/
def digitsToNat (acc : Nat) : List Char → Nat
  | [] => acc
  | c :: cs => if c.isDigit then digitsToNat (10 * acc + (c.toNat - 48)) cs else acc

/-- `parseInt(s)` on a non-negative decimal string: `none` (NaN) when the
first character is not a digit, otherwise the value of the longest digit
prefix. -/
def jsParseInt (s : String) : Option Nat :=
  match s.toList with
  | [] => none
  | c :: _ => if c.isDigit then some (digitsToNat 0 s.toList) else none

theorem digitChar_isDigit {d : Nat} (h : d < 10) : (digitChar d).isDigit = true := by
  interval_cases d <;> decide

theorem digitChar_toNat {d : Nat} (h : d < 10) : (digitChar d).toNat = 48 + d := by
  interval_cases d <;> decide

theorem natToDigitsRef_all_digits (n : Nat) : ∀ c ∈ natToDigitsRef n, c.isDigit = true := by
  induction n using Nat.strong_induction_on with
  | _ n ih =>
    intro c hc
    rw [natToDigitsRef] at hc
    by_cases h : n < 10
    · simp [h] at hc
      exact hc ▸ digitChar_isDigit h
    · simp [h, List.mem_append] at hc
      rcases hc with hc | hc
      · exact ih (n / 10) (Nat.div_lt_self (by omega) (by omega)) c hc
      · exact hc ▸ digitChar_isDigit (Nat.mod_lt n (by omega))

theorem natToDigitsRef_ne_nil (n : Nat) : natToDigitsRef n ≠ [] := by
  rw [natToDigitsRef]
  by_cases h : n < 10 <;> simp [h]

theorem digitsToNat_append_digits (acc : Nat) (l₁ l₂ : List Char)
    (h : ∀ c ∈ l₁, c.isDigit = true) :
    digitsToNat acc (l₁ ++ l₂) = digitsToNat (digitsToNat acc l₁) l₂ := by
  induction l₁ generalizing acc with
  | nil => rfl
  | cons c cs ih =>
    have hc := h c (by simp)
    simp only [List.cons_append, digitsToNat, hc, if_true]
    exact ih _ (fun x hx => h x (by simp [hx]))

theorem digitsToNat_natToDigitsRef (n : Nat) :
    ∀ acc, digitsToNat acc (natToDigitsRef n) = acc * 10 ^ (natToDigitsRef n).length + n := by
  induction n using Nat.strong_induction_on with
  | _ n ih =>
    intro acc
    rw [natToDigitsRef]
    by_cases h : n < 10
    · simp only [h, dif_pos, digitsToNat, digitChar_isDigit h, if_true,
        digitChar_toNat h, List.length_singleton, pow_one]
      omega
    · simp only [h, dif_neg, not_false_iff]
      rw [digitsToNat_append_digits _ _ _ (natToDigitsRef_all_digits _)]
      have hdiv : n / 10 < n := Nat.div_lt_self (by omega) (by omega)
      rw [ih (n / 10) hdiv acc]
      simp only [digitsToNat, digitChar_isDigit (Nat.mod_lt n (by omega)), if_true,
        digitChar_toNat (Nat.mod_lt n (by omega)), List.length_append,
        List.length_singleton]
      have hmod : 48 + n % 10 - 48 = n % 10 := by omega
      rw [hmod, pow_succ]
      have : 10 * (n / 10) + n % 10 = n := Nat.div_add_mod n 10
      ring_nf
      omega

theorem natToDigitsAux_eq (fuel : Nat) :
    ∀ n acc, n ≤ fuel → 0 < n → natToDigitsAux fuel n acc = natToDigitsRef n ++ acc := by
  induction fuel with
  | zero => intro n acc hf hn; omega
  | succ fuel ih =>
    intro n acc hf hn
    match n, hn with
    | m + 1, _ =>
      have hstep : natToDigitsAux (fuel + 1) (m + 1) acc
          = natToDigitsAux fuel ((m + 1) / 10) (digitChar ((m + 1) % 10) :: acc) := rfl
      rw [hstep]
      by_cases h : m + 1 < 10
      · have hdiv : (m + 1) / 10 = 0 := Nat.div_eq_of_lt h
        have hmod : (m + 1) % 10 = m + 1 := Nat.mod_eq_of_lt h
        rw [hdiv, hmod, natToDigitsRef]
        simp [h, natToDigitsAux]
      · have hpos : 0 < (m + 1) / 10 := Nat.div_pos (by omega) (by omega)
        have hlt : (m + 1) / 10 < m + 1 := Nat.div_lt_self (by omega) (by omega)
        rw [ih ((m + 1) / 10) _ (by omega) hpos]
        conv_rhs => rw [natToDigitsRef]
        rw [dif_neg h, List.append_assoc]
        rfl

theorem natToDigits_eq_ref (n : Nat) : natToDigits n = natToDigitsRef n := by
  unfold natToDigits
  by_cases h : n = 0
  · subst h
    rw [natToDigitsRef]
    simp
    decide
  · rw [if_neg h, natToDigitsAux_eq n n [] (le_refl n) (by omega), List.append_nil]

/-- `parseInt` inverts `toString` on every natural number: feeding a page
cursor (a stringified timestamp) back into the engine recovers the
timestamp. -/
theorem jsParseInt_natToString (n : Nat) : jsParseInt (natToString n) = some n := by
  have hne := natToDigitsRef_ne_nil n
  have hdig := natToDigitsRef_all_digits n
  unfold jsParseInt natToString
  rw [natToDigits_eq_ref]
  cases hl : natToDigitsRef n with
  | nil => exact absurd hl hne
  | cons c cs =>
    have hc : c.isDigit = true := hdig c (by rw [hl]; simp)
    have hlist : (String.mk (c :: cs)).toList = c :: cs := rfl
    rw [hlist]
    show (if c.isDigit = true then some (digitsToNat 0 (c :: cs)) else none) = some n
    rw [if_pos hc]
    have hval := digitsToNat_natToDigitsRef n 0
    rw [hl] at hval
    simp only [Nat.zero_mul, Nat.zero_add] at hval
    rw [hval]

/-- `sortOrder ∈ {'asc', 'desc'}`. -/
inductive SortOrder where
  | asc | desc
deriving DecidableEq

/-- The row ordering of `ORDER BY timestamp ASC|DESC` (`a` may come
before `b`).  `queryRecords` is modelled at `sortBy = 'timestamp'`, the
default and the only value used by the repository paths under study. -/
def rowLe (o : SortOrder) (a b : DbRecord) : Prop :=
  match o with
  | .desc => b.timestamp ≤ a.timestamp
  | .asc => a.timestamp ≤ b.timestamp

instance (o : SortOrder) : DecidableRel (rowLe o) := fun a b => by
  unfold rowLe; cases o <;> exact Nat.decLe _ _

instance (o : SortOrder) : IsTotal DbRecord (rowLe o) :=
  ⟨by intro a b; cases o <;> simp only [rowLe] <;> omega⟩

instance (o : SortOrder) : IsTrans DbRecord (rowLe o) :=
  ⟨by intro a b c; cases o <;> simp only [rowLe] <;> omega⟩

/-- The sorted sequence the SQL query enumerates (a stable sort by
`timestamp`; with pairwise-distinct timestamps the order is the unique
sorted one, regardless of how SQLite breaks ties). -/
def sortRows (o : SortOrder) (l : List DbRecord) : List DbRecord :=
  List.insertionSort (rowLe o) l

/-- The caller-facing filter object (`QueryOptions.filters`).  String
fields are optional and — per the `if (filters.x)` truthiness checks —
empty strings impose no constraint.  `startTime` / `endTime` are given in
the source as ISO-8601 strings and converted with
`new Date(s).getTime()`; they are modelled post-conversion, as epoch
milliseconds. -/
structure QueryFilters where
  datasetName : Option String := none
  split : Option String := none
  version : Option String := none
  contentType : Option String := none
  app : Option String := none
  owner : Option String := none
  startTime : Option Nat := none
  endTime : Option Nat := none
deriving DecidableEq

/-- One pushed equality clause `json_extract(tags, '$.f') = ?`: absent or
empty filter values push no clause (JS truthiness); `NULL = v` is not
satisfied, so a row whose extraction is `NULL` never matches an active
clause. -/
def tagClause (fv : Option String) (extracted : Option String) : Bool :=
  match fv with
  | none => true
  | some s => if s.isEmpty then true else decide (extracted = some s)

/-- The conjunction of the WHERE clauses `queryRecords` pushes for a
filter object (everything except the cursor clause). -/
def rowMatches (f : QueryFilters) (r : DbRecord) : Bool :=
  tagClause f.datasetName (jsonExtract r.tags .datasetName) &&
  tagClause f.split (jsonExtract r.tags .split) &&
  tagClause f.version (jsonExtract r.tags .version) &&
  tagClause f.contentType (jsonExtract r.tags .contentType) &&
  tagClause f.app (jsonExtract r.tags .app) &&
  tagClause f.owner (jsonExtract r.tags .owner) &&
  (match f.startTime with
   | none => true
   | some t => decide (t ≤ r.timestamp)) &&
  (match f.endTime with
   | none => true
   | some t => decide (r.timestamp ≤ t))

/-- The cursor clause: for a truthy cursor string, `timestamp < parseInt
cursor` under `desc` and `timestamp > parseInt cursor` under `asc`; an
unparseable cursor (NaN) satisfies no row. -/
def cursorClause (o : SortOrder) (cursor : Option String) (r : DbRecord) : Bool :=
  match cursor with
  | none => true
  | some s =>
    if s.isEmpty then true
    else
      match jsParseInt s with
      | some n =>
        match o with
        | .desc => decide (r.timestamp < n)
        | .asc => decide (n < r.timestamp)
      | none => false

/-- A result page of `Database.queryRecords`. -/
structure QueryPage where
  records : List DbRecord
  nextCursor : Option String
deriving DecidableEq

/-- `Database.queryRecords(filters, sortBy='timestamp', sortOrder, limit,
cursor)`: select the rows matching the filter and cursor clauses, order
them by timestamp, fetch `limit + 1` of them; if more than `limit` came
back, return the first `limit` together with a `nextCursor` holding the
last returned row's timestamp, stringified; otherwise return them all
with no cursor.  The row mapping (`tags: JSON.parse(row.tags)`) is the
identity on this representation of the `TEXT` column. -/
def queryRecords (db : List DbRecord) (f : QueryFilters) (o : SortOrder)
    (limit : Nat) (cursor : Option String) : QueryPage :=
  let sorted := sortRows o (db.filter (fun r => rowMatches f r && cursorClause o cursor r))
  let rows := sorted.take (limit + 1)
  let hasMore := decide (limit < rows.length)
  let records := if hasMore then rows.take limit else rows
  let nextCursor :=
    if hasMore then
      match records.getLast? with
      | some r => some (natToString r.timestamp)
      | none => none
    else none
  ⟨records, nextCursor⟩

/-- Sequence a partial map over a list (`Array.prototype.map` with a
body that can throw): `none` as soon as one element fails. -/
def optionMapAll {α β : Type} (f : α → Option β) : List α → Option (List β)
  | [] => some []
  | x :: xs =>
    match f x, optionMapAll f xs with
    | some y, some ys => some (y :: ys)
    | _, _ => none

/-- Sequence a fallible map over a list (`Promise.all` over per-item
tasks): the failure of least index surfaces. -/
def exceptMapAll {ε α β : Type} (f : α → Except ε β) : List α → Except ε (List β)
  | [] => .ok []
  | x :: xs =>
    match f x with
    | .error e => .error e
    | .ok y =>
      match exceptMapAll f xs with
      | .error e => .error e
      | .ok ys => .ok (y :: ys)

instance exceptDecEq {ε α : Type} [DecidableEq ε] [DecidableEq α] :
    DecidableEq (Except ε α) := fun x y =>
  match x, y with
  | .ok a, .ok b => decidable_of_iff (a = b) (by simp)
  | .error a, .error b => decidable_of_iff (a = b) (by simp)
  | .ok _, .error _ => isFalse (by intro hc; exact Except.noConfusion hc)
  | .error _, .ok _ => isFalse (by intro hc; exact Except.noConfusion hc)

/-- One mapped result of `AIRepository.queryData` (`id` is the row's
`transactionId`; `tags` is re-parsed when the stored value is a string;
`cursor` is the row's stringified timestamp). -/
structure QueryResultItem where
  id : String
  timestamp : Nat
  tags : JsValue
  receipt : Option String
  cursor : String
deriving DecidableEq

/-- The per-record mapping of `AIRepository.queryData`:
`typeof tags === 'string' ? JSON.parse(tags) : tags`; `none` when that
`JSON.parse` throws. -/
def toQueryResult (r : DbRecord) : Option QueryResultItem :=
  match (if r.tags.isString then jsonParse r.tags else some r.tags) with
  | some t => some ⟨r.transactionId, r.timestamp, t, r.receipt, natToString r.timestamp⟩
  | none => none

/-- A result page of `AIRepository.queryData`. -/
structure QueryDataPage where
  results : List QueryResultItem
  nextCursor : Option String
deriving DecidableEq

/-- `QueryOptions` as consumed by `AIRepository.queryData` (`sortBy` is
modelled at its default `'timestamp'`). -/
structure QueryOptions where
  filters : Option QueryFilters := none
  sortOrder : Option SortOrder := none
  limit : Option Nat := none
  cursor : Option String := none
deriving DecidableEq

/-- `AIRepository.queryData`: delegates to `queryRecords` with
`options.filters || {}`, `options.sortOrder || 'desc'`,
`options.limit || 50`, and maps each record to the result shape.  A
throw inside the mapping surfaces as a `Query failed` error. -/
def AIRepository.queryData (db : List DbRecord) (opts : QueryOptions) :
    Except String QueryDataPage :=
  let page := queryRecords db (opts.filters.getD {}) (opts.sortOrder.getD .desc)
    (jsNumOr opts.limit 50) opts.cursor
  match optionMapAll toQueryResult page.records with
  | some results => .ok ⟨results, page.nextCursor⟩
  | none => .error "Query failed: invalid JSON in stored tags"

/-- One mapped result of `getLatestVersion` / `getVersions` (same tag
re-parse as `queryData`, without the `cursor` field). -/
structure VersionItem where
  id : String
  timestamp : Nat
  tags : JsValue
  receipt : Option String
deriving DecidableEq

/-- The per-record mapping of `getLatestVersion` / `getVersions`. -/
def toVersionItem (r : DbRecord) : Option VersionItem :=
  match (if r.tags.isString then jsonParse r.tags else some r.tags) with
  | some t => some ⟨r.transactionId, r.timestamp, t, r.receipt⟩
  | none => none

/-- The spread `...(split && { split })`: a supplied split reaches the
filter object only when truthy — an empty-string split is dropped. -/
def splitFilter (split : Option String) : Option String :=
  match split with
  | some s => if s.isEmpty then none else some s
  | none => none

/-- `AIRepository.getLatestVersion(datasetName, split?)`: queries
`{datasetName, ...(split && {split})}` at `sortBy='timestamp'`,
`sortOrder='desc'`, `limit=1`, and returns the mapped single record, or
`null` when there is none. -/
def AIRepository.getLatestVersion (db : List DbRecord) (datasetName : String)
    (split : Option String) : Except String (Option VersionItem) :=
  let page := queryRecords db { datasetName := some datasetName, split := splitFilter split }
    .desc 1 none
  match page.records with
  | [] => .ok none
  | r :: _ =>
    match toVersionItem r with
    | some v => .ok (some v)
    | none => .error "Get latest version failed: invalid JSON in stored tags"

/-- `AIRepository.getVersions(datasetName, split?)`: same filter as
`getLatestVersion` but with no `limit` argument, so `queryRecords` runs
at its default `limit = 50`. -/
def AIRepository.getVersions (db : List DbRecord) (datasetName : String)
    (split : Option String) : Except String (List VersionItem) :=
  let page := queryRecords db { datasetName := some datasetName, split := splitFilter split }
    .desc 50 none
  match optionMapAll toVersionItem page.records with
  | some vs => .ok vs
  | none => .error "Get versions failed: invalid JSON in stored tags"

/-- The Irys SDK's answer to an upload: a transaction id and an optional
signature. -/
structure UploadResponse where
  id : String
  signature : Option String
deriving DecidableEq

/-- The result shape of `IrysUploader.uploadFile`. -/
structure UploadResult where
  transactionId : String
  receipt : Option String
deriving DecidableEq

/-- `IrysUploader.uploadFile(filePath, options)`: the filesystem check
and the SDK call are the oracle `env` (an `.error` covers both `File not
found` and an SDK rejection); any failure is wrapped as
`Upload failed: <cause>`.  On success the receipt is
`response.signature || undefined`, included only when requested. -/
def IrysUploader.uploadFile (env : String → Except String UploadResponse)
    (filePath : String) (receipt : Bool) : Except String UploadResult :=
  match env filePath with
  | .error e => .error ("Upload failed: " ++ e)
  | .ok resp =>
    .ok ⟨resp.id,
      if receipt then
        match resp.signature with
        | some s => if s.isEmpty then none else some s
        | none => none
      else none⟩

/-- One input item of `batchUpload`. -/
structure FileItem where
  filePath : String
  metadata : DatasetMetadata
deriving DecidableEq

/-- One result item of `batchUpload`. -/
structure BatchResult where
  transactionId : String
  receipt : Option String
  filePath : String
deriving DecidableEq

/-- Fuelled chunking (the fuel is an upper bound on the number of
chunks; `l.length` suffices for a positive chunk size). -/
def chunksFuel {α : Type} : Nat → Nat → List α → List (List α)
  | 0, _, _ => []
  | fuel + 1, bs, l => if l.isEmpty then [] else l.take bs :: chunksFuel fuel bs (l.drop bs)

/-- The batch partition of the loop
`for (i = 0; i < files.length; i += batchSize)`. -/
def chunks {α : Type} (bs : Nat) (l : List α) : List (List α) :=
  chunksFuel l.length bs l

/-- One mapped promise of a batch: upload one file and attach its
`filePath` to the result; the per-item `catch` logs and rethrows, so the
error passes through unchanged. -/
def uploadOneItem (env : String → Except String UploadResponse) (receipt : Bool)
    (file : FileItem) : Except String BatchResult :=
  (IrysUploader.uploadFile env file.filePath receipt).map
    fun r => ⟨r.transactionId, r.receipt, file.filePath⟩

/-- One batch of `IrysUploader.batchUpload`: the per-item uploads awaited
together under `Promise.all`, whose rejection aborts the batch (modelled
as the failure of least index). -/
def perBatchUpload (env : String → Except String UploadResponse) (receipt : Bool)
    (batch : List FileItem) : Except String (List BatchResult) :=
  exceptMapAll (uploadOneItem env receipt) batch

/-- `IrysUploader.batchUpload(files, options)`: partition into batches of
`options.batchSize || 10` and run them sequentially, concatenating the
per-batch results; the inter-batch 1-second delay has no effect on the
result.  There is no surrounding try/catch, so errors propagate raw. -/
def IrysUploader.batchUpload (env : String → Except String UploadResponse)
    (files : List FileItem) (receipt : Bool) (batchSize : Option Nat) :
    Except String (List BatchResult) :=
  (exceptMapAll (perBatchUpload env receipt) (chunks (jsNumOr batchSize 10) files)).map
    List.flatten

/-- The `DatabaseRecord` the coordinator indexes after a successful
remote write: `id` and `transaction_id` are the transaction id,
`timestamp` is `Date.now()`, and `tags` is `JSON.stringify(metadata)` —
a JS *string*, which `insertRecord` then stringifies again. -/
def mkUploadRow (txid : String) (rcpt : Option String) (meta : DatasetMetadata)
    (now : Nat) (nowIso : String) : DbRecord :=
  ⟨txid, txid, now, jsonStringify (JsValue.meta meta), rcpt, nowIso⟩

/-- `AIRepository.uploadFile(filePath, metadata, options)` (and the
structurally identical `uploadBuffer`): remote write, then local index
write, inside one try/catch that wraps *any* failure as
`Upload failed: <cause>`.  `insertOutcome` is the oracle for the
`insertRecord` SQLite call. -/
def AIRepository.uploadFile (env : String → Except String UploadResponse)
    (insertOutcome : Except String Unit) (db : List DbRecord) (now : Nat)
    (nowIso : String) (filePath : String) (meta : DatasetMetadata) (receipt : Bool) :
    Except String (UploadResult × List DbRecord) :=
  match IrysUploader.uploadFile env filePath receipt with
  | .error e => .error ("Upload failed: " ++ e)
  | .ok ur =>
    match insertOutcome with
    | .error e => .error ("Upload failed: " ++ e)
    | .ok _ => .ok (ur, insertRecord db (mkUploadRow ur.transactionId ur.receipt meta now nowIso))

/-- `AIRepository.batchUpload(files, options)`: delegate to the uploader,
then index every result, looking its metadata up by `filePath`
(`files.find(f => f.filePath === result.filePath)!`).  Any failure —
including the uploader's rejection — is wrapped as
`Batch upload failed: <cause>`; the crash of the non-null assertion when
`find` misses is modelled with an abstract message.  Store-write
failures on this path are not modelled (the claims under study concern
remote failures). -/
def AIRepository.batchUpload (env : String → Except String UploadResponse)
    (db : List DbRecord) (now : Nat) (nowIso : String) (files : List FileItem)
    (receipt : Bool) (batchSize : Option Nat) :
    Except String (List BatchResult × List DbRecord) :=
  match IrysUploader.batchUpload env files receipt batchSize with
  | .error e => .error ("Batch upload failed: " ++ e)
  | .ok results =>
    match optionMapAll (fun r =>
        (files.find? (fun f => f.filePath == r.filePath)).map
          fun f => mkUploadRow r.transactionId r.receipt f.metadata now nowIso) results with
    | some recs => .ok (results, recs.foldl insertRecord db)
    | none => .error "Batch upload failed: Cannot read properties of undefined"

/-- `IrysUploader.prepareTags`: the wire tag vocabulary. -/
def prepareTags (m : DatasetMetadata) : List (String × String) :=
  [("App", m.app), ("Content-Type", m.contentType), ("Dataset-Name", m.datasetName),
   ("Split", m.split), ("Version", m.version), ("Owner", m.owner), ("Created-At", m.createdAt)]

/-- One `{ name: { equalTo }, value: { equalTo } }` condition of the
remote filter object. -/
structure TagEq where
  name : String
  value : String
deriving DecidableEq

/-- The GraphQL filter object built by `IrysQuery.buildFilters`: the tag
conditions are combined as `tags: { some: { or: [...] } }`, and the
optional `block.timestamp` bounds (seconds) are separate top-level
fields. -/
structure RemoteFilter where
  tagConds : List TagEq
  startTimeSec : Option Nat
  endTimeSec : Option Nat
deriving DecidableEq

/-- One `if (filters.x) tagFilters.push(...)` step. -/
def condOf (fv : Option String) (wire : String) : List TagEq :=
  match fv with
  | some s => if s.isEmpty then [] else [⟨wire, s⟩]
  | none => []

/-- `IrysQuery.buildFilters` (source push order); the time bounds are
`new Date(s).getTime() / 1000` — modelled on the post-conversion
millisecond values (the division is exact on whole-second inputs; no
claim under study exercises it). -/
def buildFilters (f : QueryFilters) : RemoteFilter :=
  ⟨condOf f.datasetName "Dataset-Name" ++ condOf f.split "Split" ++
   condOf f.version "Version" ++ condOf f.contentType "Content-Type" ++
   condOf f.app "App" ++ condOf f.owner "Owner",
   f.startTime.map (· / 1000), f.endTime.map (· / 1000)⟩

/-- A transaction as the remote index sees it: its tag list and block
timestamp (seconds). -/
structure RemoteTx where
  id : String
  blockTimestamp : Nat
  tags : List (String × String)
deriving DecidableEq

/-- The documented matching semantics of the built filter object:
`tags: { some: { or: conds } }` holds when some tag of the transaction
satisfies one of the conditions (no constraint when no condition was
pushed), conjoined with the block-timestamp bounds. -/
def remoteMatches (rf : RemoteFilter) (tx : RemoteTx) : Bool :=
  (rf.tagConds.isEmpty ||
    rf.tagConds.any fun c => tx.tags.any fun t => t.1 == c.name && t.2 == c.value) &&
  (match rf.startTimeSec with
   | none => true
   | some t => decide (t ≤ tx.blockTimestamp)) &&
  (match rf.endTimeSec with
   | none => true
   | some t => decide (tx.blockTimestamp ≤ t))

/-- The remote image of an artifact uploaded with metadata `m`
(`prepareTags` is the only tag writer). -/
def remoteTxOf (m : DatasetMetadata) (id : String) (ts : Nat) : RemoteTx :=
  ⟨id, ts, prepareTags m⟩

/-- A local row whose `tags` column is the *single* JSON encoding of `m` —
the shape the local WHERE clauses address ("identical data" for the
substitutability comparison). -/
def idealRow (m : DatasetMetadata) (id : String) (ts : Nat) : DbRecord :=
  ⟨id, id, ts, JsValue.meta m, none, ""⟩

/-! ## General lemmas about the sequencing and chunking combinators -/

theorem optionMapAll_isSome {α β : Type} (f : α → Option β) (l : List α)
    (h : ∀ x ∈ l, (f x).isSome) : ∃ ys, optionMapAll f l = some ys := by
  induction l with
  | nil => exact ⟨[], rfl⟩
  | cons x xs ih =>
    obtain ⟨y, hy⟩ := Option.isSome_iff_exists.mp (h x (by simp))
    obtain ⟨ys, hys⟩ := ih fun a ha => h a (by simp [ha])
    exact ⟨y :: ys, by simp [optionMapAll, hy, hys]⟩

theorem exceptMapAll_ok {ε α β γ : Type} (f : α → Except ε β) (g : β → γ) (k : α → γ)
    (l : List α) (H : ∀ x ∈ l, ∃ y, f x = .ok y ∧ g y = k x) :
    ∃ ys, exceptMapAll f l = .ok ys ∧ ys.map g = l.map k := by
  induction l with
  | nil => exact ⟨[], rfl, rfl⟩
  | cons x xs ih =>
    obtain ⟨y, hy, hgy⟩ := H x (by simp)
    obtain ⟨ys, hys, hmap⟩ := ih fun a ha => H a (by simp [ha])
    exact ⟨y :: ys, by simp [exceptMapAll, hy, hys], by simp [hmap, hgy]⟩

theorem exceptMapAll_error {ε α β : Type} (f : α → Except ε β) (l : List α)
    (H : ∃ x ∈ l, ∃ e, f x = .error e) : ∃ e, exceptMapAll f l = .error e := by
  induction l with
  | nil => simp at H
  | cons x xs ih =>
    rcases H with ⟨a, ha, e, he⟩
    rcases List.mem_cons.mp ha with rfl | hmem
    · exact ⟨e, by simp [exceptMapAll, he]⟩
    · cases hfx : f x with
      | error e2 => exact ⟨e2, by simp [exceptMapAll, hfx]⟩
      | ok y =>
        obtain ⟨e3, he3⟩ := ih ⟨a, hmem, e, he⟩
        exact ⟨e3, by simp [exceptMapAll, hfx, he3]⟩

theorem chunksFuel_flatten {α : Type} (bs : Nat) (hbs : 0 < bs) :
    ∀ (fuel : Nat) (l : List α), l.length ≤ fuel → (chunksFuel fuel bs l).flatten = l := by
  intro fuel
  induction fuel with
  | zero =>
    intro l h
    have : l = [] := List.eq_nil_of_length_eq_zero (by omega)
    simp [this, chunksFuel]
  | succ fuel ih =>
    intro l h
    cases l with
    | nil => simp [chunksFuel]
    | cons x xs =>
      have hne : ((x :: xs).isEmpty) = false := rfl
      simp only [chunksFuel, hne, Bool.false_eq_true, if_false, List.flatten_cons]
      rw [ih ((x :: xs).drop bs)
        (by simp only [List.length_drop, List.length_cons] at h ⊢; omega)]
      exact List.take_append_drop bs (x :: xs)

theorem chunks_flatten {α : Type} (bs : Nat) (hbs : 0 < bs) (l : List α) :
    (chunks bs l).flatten = l :=
  chunksFuel_flatten bs hbs l.length l (le_refl _)

theorem jsNumOr_pos (n : Option Nat) (d : Nat) (hd : 0 < d) : 0 < jsNumOr n d := by
  cases n with
  | none => exact hd
  | some m =>
    by_cases hm : m = 0
    · simpa [jsNumOr, hm] using hd
    · simp [jsNumOr, hm]
      omega

theorem uploadOneItem_ok (env : String → Except String UploadResponse) (rq : Bool)
    (file : FileItem) (resp : UploadResponse) (h : env file.filePath = .ok resp) :
    ∃ y, uploadOneItem env rq file = .ok y ∧ y.filePath = file.filePath := by
  unfold uploadOneItem IrysUploader.uploadFile
  rw [h]
  exact ⟨_, rfl, rfl⟩

theorem uploadOneItem_error (env : String → Except String UploadResponse) (rq : Bool)
    (file : FileItem) (e : String) (h : env file.filePath = .error e) :
    uploadOneItem env rq file = .error ("Upload failed: " ++ e) := by
  unfold uploadOneItem IrysUploader.uploadFile
  rw [h]
  rfl

/-- The error "kind" visible to a caller: the wrapper text before the
first colon of the thrown message. -/
def errorKind (e : String) : String :=
  String.mk (e.toList.takeWhile fun c => c ≠ ':')

theorem takeWhile_append_stop (p : Char → Bool) (l₁ l₂ : List Char) (c₀ : Char)
    (h₁ : ∀ c ∈ l₁, p c = true) (hc : p c₀ = false) :
    (l₁ ++ c₀ :: l₂).takeWhile p = l₁ := by
  induction l₁ with
  | nil => simp [List.takeWhile, hc]
  | cons c cs ih =>
    have hcp := h₁ c (by simp)
    simp only [List.cons_append, List.takeWhile, hcp]
    exact congrArg (List.cons c) (ih fun a ha => h₁ a (by simp [ha]))

theorem errorKind_uploadWrap (e : String) :
    errorKind ("Upload failed: " ++ e) = "Upload failed" := by
  unfold errorKind
  have hdata : ("Upload failed: " ++ e).toList
      = "Upload failed".toList ++ ':' :: ' ' :: e.toList := by
    show "Upload failed: ".data ++ e.data = "Upload failed".data ++ ':' :: ' ' :: e.data
    have h₂ : "Upload failed: ".data = "Upload failed".data ++ [':', ' '] := by decide
    rw [h₂, List.append_assoc]
    rfl
  rw [hdata, takeWhile_append_stop _ _ _ _ (by decide) (by decide)]
  rfl

/-! ## The claims -/

/-- C10: a `queryData` call whose options carry an explicit `limit` of
`0` — the only falsy value a non-negative limit can take — behaves
exactly like a call omitting `limit`: `options.limit || 50` substitutes
the default 50, so limit 0 returns up to 50 records rather than an empty
page. -/
theorem C10_queryData_limit_zero_is_default (db : List DbRecord)
    (f : Option QueryFilters) (o : Option SortOrder) (c : Option String) :
    AIRepository.queryData db ⟨f, o, some 0, c⟩
      = AIRepository.queryData db ⟨f, o, none, c⟩ := rfl

/-- C9: after two `insertRecord` calls whose records share an `id` — even
with different tags — the table holds exactly one row for that id, namely
the second record (hence with the tags of the most recent call);
`insertRecord` is a total function, so no error is raised on the second
call. -/
theorem C9_upsert_idempotent (db : List DbRecord) (r₁ r₂ : DbRecord)
    (h : r₁.id = r₂.id) :
    (insertRecord (insertRecord db r₁) r₂).filter
      (fun row => decide (row.id = r₁.id)) = [r₂] := by
  rw [h]
  show ((insertRecord db r₁).filter
      (fun row => !decide (row.id = r₂.id ∨ row.transactionId = r₂.transactionId)) ++ [r₂]).filter
      (fun row => decide (row.id = r₂.id)) = [r₂]
  rw [List.filter_append, List.filter_filter]
  have h₁ : ∀ (l : List DbRecord),
      l.filter (fun row =>
        decide (row.id = r₂.id) && !decide (row.id = r₂.id ∨ row.transactionId = r₂.transactionId))
        = [] := by
    intro l
    apply List.filter_eq_nil_iff.mpr
    intro a _
    by_cases hid : a.id = r₂.id <;> simp [hid]
  rw [h₁]
  simp

/-- Witness for C9 at a concrete pair of records sharing id `"a"`. -/
theorem C9_witness :
    (insertRecord (insertRecord []
        ⟨"a", "t1", 1, JsValue.strLit "x", none, "c1"⟩)
        ⟨"a", "t2", 2, JsValue.strLit "y", none, "c2"⟩).filter
      (fun row => decide (row.id = (⟨"a", "t1", 1, JsValue.strLit "x", none, "c1"⟩ : DbRecord).id))
      = [⟨"a", "t2", 2, JsValue.strLit "y", none, "c2"⟩] :=
  C9_upsert_idempotent [] ⟨"a", "t1", 1, JsValue.strLit "x", none, "c1"⟩
    ⟨"a", "t2", 2, JsValue.strLit "y", none, "c2"⟩ rfl

/-- C3 counterexample: the claim that an index-write failure after a
successful remote write is surfaced with an error kind distinct from a
remote-write failure is false.  At concrete inputs, a failing local
insert after a successful remote write yields
`Upload failed: SQLITE_BUSY`, a failing remote write yields
`Upload failed: Upload failed: network down` — the same `Upload failed`
kind; no `IndexingFailure` kind exists anywhere in the code. -/
theorem C3_counterexample :
    (AIRepository.uploadFile (fun _ => .ok ⟨"tx1", none⟩) (.error "SQLITE_BUSY")
        [] 7 "iso" "f.bin" ⟨"a", "b", "c", "d", "e", "f", "g"⟩ false
      = .error "Upload failed: SQLITE_BUSY") ∧
    (AIRepository.uploadFile (fun _ => .error "network down") (.ok ())
        [] 7 "iso" "f.bin" ⟨"a", "b", "c", "d", "e", "f", "g"⟩ false
      = .error "Upload failed: Upload failed: network down") ∧
    errorKind "Upload failed: SQLITE_BUSY"
      = errorKind "Upload failed: Upload failed: network down" :=
  ⟨rfl, rfl, by decide⟩

/-- C3 (amended): an index-write failure after a successful remote write
*is* surfaced to the caller as an error — but `uploadFile`'s single
try/catch wraps it as `Upload failed: <cause>`, the same kind a
remote-write failure carries (the latter double-wrapped as
`Upload failed: Upload failed: <cause>`).  The caller cannot distinguish
"on the ledger but not indexed" from "never reached the ledger" by
kind. -/
theorem C3_amended_no_distinct_kind (resp : UploadResponse) (e₁ e₂ : String)
    (db : List DbRecord) (now : Nat) (iso fp : String) (m : DatasetMetadata) (rq : Bool) :
    (AIRepository.uploadFile (fun _ => .ok resp) (.error e₁) db now iso fp m rq
      = .error ("Upload failed: " ++ e₁)) ∧
    (AIRepository.uploadFile (fun _ => .error e₂) (.ok ()) db now iso fp m rq
      = .error ("Upload failed: " ++ ("Upload failed: " ++ e₂))) ∧
    errorKind ("Upload failed: " ++ e₁)
      = errorKind ("Upload failed: " ++ ("Upload failed: " ++ e₂)) :=
  ⟨rfl, rfl, by rw [errorKind_uploadWrap, errorKind_uploadWrap]⟩

/-- A lineage of 51 records sharing `datasetName = "mnist"` (no split
filter is used), with pairwise-distinct timestamps `100 - i` and
properly (singly) encoded tags, so every row is visible to the tag
filters. -/
def c1Lineage : List DbRecord :=
  (List.range 51).map fun i =>
    ⟨natToString i, natToString i, 100 - i,
      JsValue.meta ⟨"ai", "ct", "mnist", "train", "1", "me", "t"⟩, none, "c"⟩

/-- C1: `getVersions` calls `queryRecords(filters, 'timestamp', 'desc')`
with NO limit argument, so the engine runs at its default page limit 50
— there is no unlimited-results sentinel anywhere in `queryRecords`.  On
a lineage of 51 records, all of which carry the dataset name, the call
returns only 50 records: the result IS truncated at 50, against the
spec's explicit requirement. -/
theorem C1_getVersions_truncates_at_50 :
    c1Lineage.length = 51 ∧
    (∀ r ∈ c1Lineage, jsonExtract r.tags .datasetName = some "mnist") ∧
    (AIRepository.getVersions c1Lineage "mnist" none).map List.length = .ok 50 :=
  ⟨by decide, by decide, by decide⟩

theorem optionMapAll_mem {α β : Type} {f : α → Option β} :
    ∀ {l : List α} {ys : List β}, optionMapAll f l = some ys →
      ∀ y ∈ ys, ∃ x ∈ l, f x = some y := by
  intro l
  induction l with
  | nil =>
    intro ys h y hy
    simp only [optionMapAll, Option.some.injEq] at h
    subst h
    simp at hy
  | cons x xs ih =>
    intro ys h y hy
    unfold optionMapAll at h
    cases hfx : f x with
    | none => rw [hfx] at h; exact absurd h (by simp)
    | some z =>
      rw [hfx] at h
      cases hrest : optionMapAll f xs with
      | none => rw [hrest] at h; exact absurd h (by simp)
      | some zs =>
        rw [hrest] at h
        simp only [Option.some.injEq] at h
        subst h
        rcases List.mem_cons.mp hy with rfl | hmem
        · exact ⟨x, by simp, hfx⟩
        · obtain ⟨a, ha, hfa⟩ := ih hrest y hmem
          exact ⟨a, by simp [ha], hfa⟩

theorem toQueryResult_id {r : DbRecord} {item : QueryResultItem}
    (h : toQueryResult r = some item) : item.id = r.transactionId := by
  unfold toQueryResult at h
  cases hp : (if r.tags.isString then jsonParse r.tags else some r.tags) with
  | none => rw [hp] at h; exact absurd h (by simp)
  | some t =>
    rw [hp] at h
    simp only [Option.some.injEq] at h
    subst h
    rfl

/-- Every returned record of a `queryRecords` page is a table row
matching the filter and cursor clauses. -/
theorem queryRecords_records_mem (db : List DbRecord) (f : QueryFilters)
    (o : SortOrder) (L : Nat) (c : Option String) :
    ∀ r ∈ (queryRecords db f o L c).records,
      r ∈ db ∧ rowMatches f r = true ∧ cursorClause o c r = true := by
  intro r hr
  simp only [queryRecords] at hr
  have hsorted : r ∈ sortRows o (db.filter fun x => rowMatches f x && cursorClause o c x) := by
    by_cases hmore : decide (L < (List.take (L + 1)
        (sortRows o (db.filter fun x => rowMatches f x && cursorClause o c x))).length) = true
    · rw [if_pos hmore] at hr
      exact List.mem_of_mem_take (List.mem_of_mem_take hr)
    · rw [if_neg hmore] at hr
      exact List.mem_of_mem_take hr
  have hfil : r ∈ db.filter fun x => rowMatches f x && cursorClause o c x :=
    (List.perm_insertionSort _ _).mem_iff.mp hsorted
  have := List.mem_filter.mp hfil
  refine ⟨this.1, ?_, ?_⟩
  · exact (Bool.and_eq_true _ _ |>.mp this.2).1
  · exact (Bool.and_eq_true _ _ |>.mp this.2).2

/-- A pushed tag clause evaluated at a `NULL` extraction: satisfied
exactly when the clause was not really pushed (absent or empty filter
value). -/
theorem tagClause_none (fv : Option String) : tagClause fv none = !(jsTruthy fv) := by
  cases fv with
  | none => rfl
  | some s =>
    by_cases hs : s.isEmpty <;> simp [tagClause, jsTruthy, hs]

/-- A row whose every tag extraction is `NULL` fails `rowMatches` as soon
as at least one of the six tag filters is truthy. -/
theorem rowMatches_false_of_null_extract (f : QueryFilters) (r : DbRecord)
    (hext : ∀ fld, jsonExtract r.tags fld = none)
    (h : (jsTruthy f.datasetName || jsTruthy f.split || jsTruthy f.version ||
          jsTruthy f.contentType || jsTruthy f.app || jsTruthy f.owner) = true) :
    rowMatches f r = false := by
  unfold rowMatches
  rw [hext .datasetName, hext .split, hext .version, hext .contentType, hext .app, hext .owner]
  rw [tagClause_none, tagClause_none, tagClause_none, tagClause_none, tagClause_none,
    tagClause_none]
  rcases Bool.or_eq_true _ _ |>.mp h with h' | h'
  case _ =>
    rcases Bool.or_eq_true _ _ |>.mp h' with h'' | h''
    case _ =>
      rcases Bool.or_eq_true _ _ |>.mp h'' with h₃ | h₃
      case _ =>
        rcases Bool.or_eq_true _ _ |>.mp h₃ with h₄ | h₄
        case _ =>
          rcases Bool.or_eq_true _ _ |>.mp h₄ with h₅ | h₅
          · simp [h₅]
          · simp [h₅]
        case _ => simp [h₄]
      case _ => simp [h₃]
    case _ => simp [h'']
  case _ => simp [h']

/-- C4: a metadata object indexed through the coordinator's upload path
is stringified twice — the coordinator stores
`tags: JSON.stringify(metadata)` (a string) in the record, and
`insertRecord` stringifies that string again — so the stored tags
document is a JSON *string scalar*, every `json_extract` tag predicate
evaluates to `NULL` on the row, a `queryData` call with any truthy tag
filter never returns it, while an unfiltered `queryData` does return it,
with tags parsed back (string detected, re-parsed) to the original
metadata object. -/
theorem C4_upload_rows_invisible_to_tag_filters (db : List DbRecord) (tx : String)
    (rc : Option String) (m : DatasetMetadata) (now : Nat) (iso : String)
    (opts : QueryOptions)
    (hfilter : (jsTruthy ((opts.filters.getD {}).datasetName) ||
        jsTruthy ((opts.filters.getD {}).split) ||
        jsTruthy ((opts.filters.getD {}).version) ||
        jsTruthy ((opts.filters.getD {}).contentType) ||
        jsTruthy ((opts.filters.getD {}).app) ||
        jsTruthy ((opts.filters.getD {}).owner)) = true) :
    (mkUploadRow tx rc m now iso).tags = jsonStringify (JsValue.meta m) ∧
    (∀ fld, jsonExtract (mkUploadRow tx rc m now iso).tags fld = none) ∧
    (∀ page, AIRepository.queryData (insertRecord db (mkUploadRow tx rc m now iso)) opts
        = .ok page → ∀ item ∈ page.results, item.id ≠ tx) ∧
    AIRepository.queryData (insertRecord [] (mkUploadRow tx rc m now iso)) ⟨none, none, none, none⟩
      = .ok ⟨[⟨tx, now, JsValue.meta m, rc, natToString now⟩], none⟩ := by
  refine ⟨rfl, fun fld => rfl, ?_, rfl⟩
  intro page hpage item hitem
  simp only [AIRepository.queryData] at hpage
  set db' := insertRecord db (mkUploadRow tx rc m now iso) with hdb'
  cases hopt : optionMapAll toQueryResult
      (queryRecords db' (opts.filters.getD {}) (opts.sortOrder.getD .desc)
        (jsNumOr opts.limit 50) opts.cursor).records with
  | none => rw [hopt] at hpage; exact absurd hpage (by simp)
  | some res =>
    rw [hopt] at hpage
    simp only [Except.ok.injEq] at hpage
    subst hpage
    obtain ⟨r, hrmem, hritem⟩ := optionMapAll_mem hopt item hitem
    obtain ⟨hrdb, hrmatch, -⟩ := queryRecords_records_mem db' _ _ _ _ r hrmem
    have hrow : r ≠ mkUploadRow tx rc m now iso := by
      intro heq
      rw [heq] at hrmatch
      rw [rowMatches_false_of_null_extract (opts.filters.getD {}) (mkUploadRow tx rc m now iso)
        (fun fld => rfl) hfilter] at hrmatch
      exact Bool.false_ne_true hrmatch
    have hrfil : r ∈ db.filter (fun row => !decide (row.id = (mkUploadRow tx rc m now iso).id ∨
        row.transactionId = (mkUploadRow tx rc m now iso).transactionId)) := by
      rw [hdb'] at hrdb
      unfold insertRecord at hrdb
      rcases List.mem_append.mp hrdb with hmem | hmem
      · exact hmem
      · exact absurd (List.mem_singleton.mp hmem) hrow
    have hne : r.transactionId ≠ tx := by
      have := (List.mem_filter.mp hrfil).2
      simp only [Bool.not_eq_eq_eq_not, Bool.not_true, decide_eq_false_iff_not] at this
      push_neg at this
      exact this.2
    rw [toQueryResult_id hritem]
    exact hne

/-- Witness for C4: the unfiltered-query conjunct at concrete inputs
(the filtered-query hypothesis is discharged at a `datasetName`
filter). -/
theorem C4_witness :
    AIRepository.queryData
        (insertRecord [] (mkUploadRow "tx1" none ⟨"a", "b", "mnist", "d", "e", "f", "g"⟩ 9 "iso"))
        ⟨none, none, none, none⟩
      = .ok ⟨[⟨"tx1", 9, JsValue.meta ⟨"a", "b", "mnist", "d", "e", "f", "g"⟩, none,
          natToString 9⟩], none⟩ :=
  (C4_upload_rows_invisible_to_tag_filters [] "tx1" none ⟨"a", "b", "mnist", "d", "e", "f", "g"⟩
    9 "iso" ⟨some ⟨some "mnist", none, none, none, none, none, none, none⟩, none, none, none⟩
    (by decide)).2.2.2

/-- C2 counterexample: for a batch of 3 items in which exactly item 2's
remote write fails, `batchUpload` does not return 3 result slots with
the error attached to item 2's slot — the rejection of `Promise.all`
(the per-item catch rethrows) escapes the whole call as a thrown
`Batch upload failed` error, and the sibling results are lost. -/
theorem C2_counterexample :
    AIRepository.batchUpload
        (fun p => if p = "f2" then .error "boom" else .ok ⟨"tx", none⟩)
        [] 7 "iso"
        [⟨"f1", ⟨"a", "b", "c", "d", "e", "f", "g"⟩⟩,
         ⟨"f2", ⟨"a", "b", "c", "d", "e", "f", "g"⟩⟩,
         ⟨"f3", ⟨"a", "b", "c", "d", "e", "f", "g"⟩⟩] false none
      = .error "Batch upload failed: Upload failed: boom" := by decide

/-- C2 (amended): `batchUpload` is all-or-nothing per call, not
per-item.  When every item's remote write succeeds, the call returns
exactly one result per input item, in input order (slot i carries item
i's `filePath`); when any item's remote write fails, the whole call
throws a `Batch upload failed` error and no per-item result slots are
produced. -/
theorem C2_batchUpload_all_or_nothing (env : String → Except String UploadResponse)
    (db : List DbRecord) (now : Nat) (iso : String) (files : List FileItem)
    (rq : Bool) (bsz : Option Nat) :
    ((∀ f ∈ files, ∃ resp, env f.filePath = .ok resp) →
      ∃ results db₂,
        AIRepository.batchUpload env db now iso files rq bsz = .ok (results, db₂) ∧
        results.map BatchResult.filePath = files.map FileItem.filePath) ∧
    ((∃ f ∈ files, ∃ e, env f.filePath = .error e) →
      ∃ e₂, AIRepository.batchUpload env db now iso files rq bsz = .error e₂) := by
  have hbs : 0 < jsNumOr bsz 10 := jsNumOr_pos bsz 10 (by omega)
  have hflat := chunks_flatten (jsNumOr bsz 10) hbs files
  constructor
  · intro H
    have Hchunk : ∀ chunk ∈ chunks (jsNumOr bsz 10) files,
        ∃ ys, perBatchUpload env rq chunk = .ok ys ∧
          ys.map BatchResult.filePath = chunk.map FileItem.filePath := by
      intro chunk hchunk
      apply exceptMapAll_ok
      intro file hfile
      have hmem : file ∈ files := by
        rw [← hflat]
        exact List.mem_flatten.mpr ⟨chunk, hchunk, hfile⟩
      obtain ⟨resp, hresp⟩ := H file hmem
      obtain ⟨y, hy, hyfp⟩ := uploadOneItem_ok env rq file resp hresp
      exact ⟨y, hy, hyfp⟩
    obtain ⟨yss, hyss, hmap⟩ :=
      exceptMapAll_ok (perBatchUpload env rq) (fun ys => ys.map BatchResult.filePath)
        (fun chunk => chunk.map FileItem.filePath) (chunks (jsNumOr bsz 10) files) Hchunk
    have hup : IrysUploader.batchUpload env files rq bsz = .ok yss.flatten := by
      unfold IrysUploader.batchUpload
      rw [hyss]
      rfl
    have hfp : yss.flatten.map BatchResult.filePath = files.map FileItem.filePath := by
      rw [List.map_flatten, hmap, ← List.map_flatten, hflat]
    have hfind : ∀ r ∈ yss.flatten,
        ((files.find? fun f => f.filePath == r.filePath).map
          fun f => mkUploadRow r.transactionId r.receipt f.metadata now iso).isSome := by
      intro r hr
      rw [Option.isSome_map']
      apply List.find?_isSome.mpr
      have : r.filePath ∈ files.map FileItem.filePath := by
        rw [← hfp]
        exact List.mem_map_of_mem _ hr
      obtain ⟨f, hf, hfeq⟩ := List.mem_map.mp this
      exact ⟨f, hf, by simp [hfeq]⟩
    obtain ⟨recs, hrecs⟩ := optionMapAll_isSome _ yss.flatten hfind
    refine ⟨yss.flatten, recs.foldl insertRecord db, ?_, hfp⟩
    simp only [AIRepository.batchUpload, hup, hrecs]
  · rintro ⟨f, hf, e, he⟩
    have hfm : f ∈ (chunks (jsNumOr bsz 10) files).flatten := by rw [hflat]; exact hf
    obtain ⟨chunk, hchunk, hfc⟩ := List.mem_flatten.mp hfm
    obtain ⟨e₂, he₂⟩ := exceptMapAll_error (uploadOneItem env rq) chunk
      ⟨f, hfc, _, uploadOneItem_error env rq f e he⟩
    obtain ⟨e₃, he₃⟩ := exceptMapAll_error (perBatchUpload env rq)
      (chunks (jsNumOr bsz 10) files) ⟨chunk, hchunk, e₂, he₂⟩
    refine ⟨"Batch upload failed: " ++ e₃, ?_⟩
    have hup : IrysUploader.batchUpload env files rq bsz = .error e₃ := by
      unfold IrysUploader.batchUpload
      rw [he₃]
      rfl
    simp only [AIRepository.batchUpload, hup]

/-- Witness for C2 (amended) at a concrete all-success batch of two
items. -/
theorem C2_batchUpload_witness :
    (AIRepository.batchUpload (fun _ => .ok ⟨"tx", none⟩) [] 7 "iso"
        [⟨"f1", ⟨"a", "b", "c", "d", "e", "f", "g"⟩⟩,
         ⟨"f2", ⟨"a", "b", "c", "d", "e", "f", "g"⟩⟩] false none).isOk = true := by
  obtain ⟨results, db₂, heq, -⟩ :=
    (C2_batchUpload_all_or_nothing (fun _ => .ok ⟨"tx", none⟩) [] 7 "iso"
      [⟨"f1", ⟨"a", "b", "c", "d", "e", "f", "g"⟩⟩,
       ⟨"f2", ⟨"a", "b", "c", "d", "e", "f", "g"⟩⟩] false none).1
      (fun f _ => ⟨⟨"tx", none⟩, rfl⟩)
  rw [heq]
  rfl

/-- C8 counterexample: the Remote Query Client does not apply conjunctive
(AND) semantics.  For the filter `{datasetName: "mnist", owner: "alice"}`
`buildFilters` emits `tags: { some: { or: [Dataset-Name=mnist,
Owner=alice] } }`, so a transaction with `Dataset-Name = mnist` but
`Owner = bob` matches remotely although the local engine rejects the
corresponding row — the remote path is not substitutable for the local
one. -/
theorem C8_counterexample :
    remoteMatches
        (buildFilters ⟨some "mnist", none, none, none, none, some "alice", none, none⟩)
        (remoteTxOf ⟨"ai", "ct", "mnist", "train", "1", "bob", "t"⟩ "t1" 5) = true ∧
    rowMatches ⟨some "mnist", none, none, none, none, some "alice", none, none⟩
        (idealRow ⟨"ai", "ct", "mnist", "train", "1", "bob", "t"⟩ "t1" 5) = false := by
  decide

/-- C8 (amended): `buildFilters` combines several tag filters
disjunctively (`tags: { some: { or: … } }`), not conjunctively.  The
remote client agrees with the local engine's predicate exactly on
filters with at most one tag field supplied: with no filter and with
each single tag-field filter the two predicates coincide on identical
data, while with two supplied fields (e.g. `datasetName` and `owner`)
the remote predicate is the OR of the field matches. -/
theorem C8_remote_or_semantics :
    (∀ (m : DatasetMetadata) (id : String) (ts : Nat),
      remoteMatches (buildFilters ⟨none, none, none, none, none, none, none, none⟩)
          (remoteTxOf m id ts)
        = rowMatches ⟨none, none, none, none, none, none, none, none⟩ (idealRow m id ts)) ∧
    (∀ (v : String) (m : DatasetMetadata) (id : String) (ts : Nat),
      remoteMatches (buildFilters ⟨some v, none, none, none, none, none, none, none⟩)
          (remoteTxOf m id ts)
        = rowMatches ⟨some v, none, none, none, none, none, none, none⟩ (idealRow m id ts)) ∧
    (∀ (v : String) (m : DatasetMetadata) (id : String) (ts : Nat),
      remoteMatches (buildFilters ⟨none, some v, none, none, none, none, none, none⟩)
          (remoteTxOf m id ts)
        = rowMatches ⟨none, some v, none, none, none, none, none, none⟩ (idealRow m id ts)) ∧
    (∀ (v : String) (m : DatasetMetadata) (id : String) (ts : Nat),
      remoteMatches (buildFilters ⟨none, none, some v, none, none, none, none, none⟩)
          (remoteTxOf m id ts)
        = rowMatches ⟨none, none, some v, none, none, none, none, none⟩ (idealRow m id ts)) ∧
    (∀ (v : String) (m : DatasetMetadata) (id : String) (ts : Nat),
      remoteMatches (buildFilters ⟨none, none, none, some v, none, none, none, none⟩)
          (remoteTxOf m id ts)
        = rowMatches ⟨none, none, none, some v, none, none, none, none⟩ (idealRow m id ts)) ∧
    (∀ (v : String) (m : DatasetMetadata) (id : String) (ts : Nat),
      remoteMatches (buildFilters ⟨none, none, none, none, some v, none, none, none⟩)
          (remoteTxOf m id ts)
        = rowMatches ⟨none, none, none, none, some v, none, none, none⟩ (idealRow m id ts)) ∧
    (∀ (v : String) (m : DatasetMetadata) (id : String) (ts : Nat),
      remoteMatches (buildFilters ⟨none, none, none, none, none, some v, none, none⟩)
          (remoteTxOf m id ts)
        = rowMatches ⟨none, none, none, none, none, some v, none, none⟩ (idealRow m id ts)) ∧
    (∀ (v w : String) (m : DatasetMetadata) (id : String) (ts : Nat),
      v.isEmpty = false → w.isEmpty = false →
      remoteMatches (buildFilters ⟨some v, none, none, none, none, some w, none, none⟩)
          (remoteTxOf m id ts)
        = (m.datasetName == v || m.owner == w)) := by
  refine ⟨?_, ?_, ?_, ?_, ?_, ?_, ?_, ?_⟩
  · intro m id ts
    simp [remoteMatches, buildFilters, condOf, rowMatches, tagClause, jsonExtract, idealRow,
      remoteTxOf, prepareTags, DatasetMetadata.fieldVal]
  · intro v m id ts
    by_cases hv : v.isEmpty
    · simp [remoteMatches, buildFilters, condOf, hv, rowMatches, tagClause, jsonExtract,
        idealRow, remoteTxOf, prepareTags, DatasetMetadata.fieldVal]
    · by_cases hm : m.datasetName = v <;>
        simp [remoteMatches, buildFilters, condOf, hv, hm, rowMatches, tagClause, jsonExtract,
          idealRow, remoteTxOf, prepareTags, DatasetMetadata.fieldVal]
  · intro v m id ts
    by_cases hv : v.isEmpty
    · simp [remoteMatches, buildFilters, condOf, hv, rowMatches, tagClause, jsonExtract,
        idealRow, remoteTxOf, prepareTags, DatasetMetadata.fieldVal]
    · by_cases hm : m.split = v <;>
        simp [remoteMatches, buildFilters, condOf, hv, hm, rowMatches, tagClause, jsonExtract,
          idealRow, remoteTxOf, prepareTags, DatasetMetadata.fieldVal]
  · intro v m id ts
    by_cases hv : v.isEmpty
    · simp [remoteMatches, buildFilters, condOf, hv, rowMatches, tagClause, jsonExtract,
        idealRow, remoteTxOf, prepareTags, DatasetMetadata.fieldVal]
    · by_cases hm : m.version = v <;>
        simp [remoteMatches, buildFilters, condOf, hv, hm, rowMatches, tagClause, jsonExtract,
          idealRow, remoteTxOf, prepareTags, DatasetMetadata.fieldVal]
  · intro v m id ts
    by_cases hv : v.isEmpty
    · simp [remoteMatches, buildFilters, condOf, hv, rowMatches, tagClause, jsonExtract,
        idealRow, remoteTxOf, prepareTags, DatasetMetadata.fieldVal]
    · by_cases hm : m.contentType = v <;>
        simp [remoteMatches, buildFilters, condOf, hv, hm, rowMatches, tagClause, jsonExtract,
          idealRow, remoteTxOf, prepareTags, DatasetMetadata.fieldVal]
  · intro v m id ts
    by_cases hv : v.isEmpty
    · simp [remoteMatches, buildFilters, condOf, hv, rowMatches, tagClause, jsonExtract,
        idealRow, remoteTxOf, prepareTags, DatasetMetadata.fieldVal]
    · by_cases hm : m.app = v <;>
        simp [remoteMatches, buildFilters, condOf, hv, hm, rowMatches, tagClause, jsonExtract,
          idealRow, remoteTxOf, prepareTags, DatasetMetadata.fieldVal]
  · intro v m id ts
    by_cases hv : v.isEmpty
    · simp [remoteMatches, buildFilters, condOf, hv, rowMatches, tagClause, jsonExtract,
        idealRow, remoteTxOf, prepareTags, DatasetMetadata.fieldVal]
    · by_cases hm : m.owner = v <;>
        simp [remoteMatches, buildFilters, condOf, hv, hm, rowMatches, tagClause, jsonExtract,
          idealRow, remoteTxOf, prepareTags, DatasetMetadata.fieldVal]
  · intro v w m id ts hv hw
    simp only [remoteMatches, buildFilters, condOf, hv, hw, remoteTxOf, prepareTags]
    by_cases hm : m.datasetName = v <;> by_cases ho : m.owner = w <;> simp [hm, ho]

/-- Witness for C8 (amended): the two-field OR conjunct at concrete
inputs. -/
theorem C8_witness :
    remoteMatches
        (buildFilters ⟨some "mnist", none, none, none, none, some "alice", none, none⟩)
        (remoteTxOf ⟨"ai", "ct", "mnist", "train", "1", "bob", "t"⟩ "t1" 5)
      = (("mnist" : String) == "mnist" || ("bob" : String) == "alice") :=
  C8_remote_or_semantics.2.2.2.2.2.2.2 "mnist" "alice"
    ⟨"ai", "ct", "mnist", "train", "1", "bob", "t"⟩ "t1" 5 (by decide) (by decide)

theorem cursorClause_some (o : SortOrder) (s : String) (n : Nat) (r : DbRecord)
    (hp : jsParseInt s = some n) (hs : s.isEmpty = false) :
    cursorClause o (some s) r
      = match o with
        | .desc => decide (r.timestamp < n)
        | .asc => decide (n < r.timestamp) := by
  simp only [cursorClause, hs, hp, Bool.false_eq_true, if_false]

/-- C6: the observable pagination contract of `queryRecords` (which
fetches `limit + 1` rows internally): writing `M` for the filtered,
sorted match sequence, when more than `limit` rows match, exactly the
first `limit` of them are returned together with a `nextCursor` equal to
the last returned row's timestamp, stringified; otherwise all matches
are returned and `nextCursor` is absent.  A supplied (truthy, parseable)
cursor restricts the table to `timestamp < cursor` under `desc` and
`timestamp > cursor` under `asc`.  The hypothesis `1 ≤ limit` holds at
every invocation in the repository (`limit=1`, the default 50, and
`queryData`'s `options.limit || 50`). -/
theorem C6_queryRecords_pagination_contract (db : List DbRecord) (f : QueryFilters)
    (o : SortOrder) (L : Nat) (c : Option String) (hL : 1 ≤ L) :
    (L < (sortRows o (db.filter fun r => rowMatches f r && cursorClause o c r)).length →
      (queryRecords db f o L c).records
        = (sortRows o (db.filter fun r => rowMatches f r && cursorClause o c r)).take L ∧
      (queryRecords db f o L c).nextCursor
        = ((sortRows o (db.filter fun r =>
            rowMatches f r && cursorClause o c r)).take L).getLast?.map
          (fun last => natToString last.timestamp) ∧
      (queryRecords db f o L c).nextCursor ≠ none) ∧
    ((sortRows o (db.filter fun r => rowMatches f r && cursorClause o c r)).length ≤ L →
      (queryRecords db f o L c).records
        = sortRows o (db.filter fun r => rowMatches f r && cursorClause o c r) ∧
      (queryRecords db f o L c).nextCursor = none) ∧
    (∀ (s : String) (n : Nat), jsParseInt s = some n → s.isEmpty = false →
      queryRecords db f o L (some s)
        = queryRecords (db.filter fun r =>
            match o with
            | .desc => decide (r.timestamp < n)
            | .asc => decide (n < r.timestamp)) f o L none) := by
  refine ⟨?_, ?_, ?_⟩
  · intro hmore
    set M := sortRows o (db.filter fun r => rowMatches f r && cursorClause o c r) with hM
    have hrows : (M.take (L + 1)).length = L + 1 := by
      rw [List.length_take]
      omega
    have hdec : decide (L < (M.take (L + 1)).length) = true := by
      rw [hrows]
      simp
    have htk : (M.take (L + 1)).take L = M.take L := by
      rw [List.take_take]
      congr 1
      omega
    have hrecords : (queryRecords db f o L c).records = M.take L := by
      simp only [queryRecords, ← hM, hdec, if_true]
      exact htk
    have hne : (M.take L).getLast? ≠ none := by
      intro hnone
      have : M.take L = [] := List.getLast?_eq_none_iff.mp hnone
      have : (M.take L).length = 0 := by rw [this]; rfl
      rw [List.length_take] at this
      omega
    have hcur : (queryRecords db f o L c).nextCursor
        = (M.take L).getLast?.map fun last => natToString last.timestamp := by
      simp only [queryRecords, ← hM, hdec, if_true, htk]
      cases hlast : (M.take L).getLast? with
      | none => rfl
      | some last => rfl
    refine ⟨hrecords, hcur, ?_⟩
    rw [hcur]
    cases hlast : (M.take L).getLast? with
    | none => exact absurd hlast hne
    | some last => simp
  · intro hle
    set M := sortRows o (db.filter fun r => rowMatches f r && cursorClause o c r) with hM
    have htake : M.take (L + 1) = M := List.take_of_length_le (by omega)
    have hdec : decide (L < M.length) = false := by simpa using hle
    constructor
    · simp only [queryRecords, ← hM, htake, hdec, Bool.false_eq_true, if_false]
    · simp only [queryRecords, ← hM, htake, hdec, Bool.false_eq_true, if_false]
  · intro s n hp hs
    have hfil : (db.filter fun r => rowMatches f r && cursorClause o (some s) r)
        = ((db.filter fun r =>
            match o with
            | .desc => decide (r.timestamp < n)
            | .asc => decide (n < r.timestamp)).filter
          fun r => rowMatches f r && cursorClause o none r) := by
      rw [List.filter_filter]
      apply List.filter_congr
      intro r _
      rw [cursorClause_some o s n r hp hs]
      cases o <;> simp [cursorClause]
    unfold queryRecords
    rw [hfil]

/-- Witness for C6 at a single-row table and `limit = 1` (the
all-returned branch). -/
theorem C6_witness :
    ((queryRecords [⟨"a", "a", 3, JsValue.strLit "x", none, "c"⟩] {} .desc 1 none).records
        = sortRows .desc (([⟨"a", "a", 3, JsValue.strLit "x", none, "c"⟩] : List DbRecord).filter
            fun r => rowMatches {} r && cursorClause .desc none r) ∧
      (queryRecords [⟨"a", "a", 3, JsValue.strLit "x", none, "c"⟩] {} .desc 1 none).nextCursor
        = none) :=
  (C6_queryRecords_pagination_contract [⟨"a", "a", 3, JsValue.strLit "x", none, "c"⟩] {}
    .desc 1 none (by decide)).2.1 (by decide)

/-- The lineage of `(datasetName, split?)`: the table rows whose
extracted tag fields equal the given values (the notion "records sharing
`datasetName` and, if supplied, `split`"). -/
def lineage (db : List DbRecord) (dn : String) (split : Option String) : List DbRecord :=
  db.filter fun r => decide (jsonExtract r.tags .datasetName = some dn) &&
    (match split with
     | none => true
     | some s => decide (jsonExtract r.tags .split = some s))

theorem toVersionItem_of_meta {x : DbRecord} {m : DatasetMetadata} (h : x.tags = .meta m) :
    toVersionItem x = some ⟨x.transactionId, x.timestamp, x.tags, x.receipt⟩ := by
  simp [toVersionItem, h, JsValue.isString]

/-- C7 counterexample: with a supplied `split = ""` (falsy, so
`...(split && { split })` drops the filter), `getLatestVersion` ignores
the split: on a table whose `(d, "")` lineage is exactly the timestamp-
100 record `A`, the call returns the timestamp-200 record `B` of another
split — not the maximum of the queried lineage, which the claim
requires. -/
theorem C7_counterexample :
    AIRepository.getLatestVersion
        [⟨"A", "A", 100, JsValue.meta ⟨"ai", "ct", "d", "", "1", "me", "t"⟩, none, "c"⟩,
         ⟨"B", "B", 200, JsValue.meta ⟨"ai", "ct", "d", "train", "1", "me", "t"⟩, none, "c"⟩]
        "d" (some "")
      = .ok (some ⟨"B", 200, JsValue.meta ⟨"ai", "ct", "d", "train", "1", "me", "t"⟩, none⟩) ∧
    lineage
        [⟨"A", "A", 100, JsValue.meta ⟨"ai", "ct", "d", "", "1", "me", "t"⟩, none, "c"⟩,
         ⟨"B", "B", 200, JsValue.meta ⟨"ai", "ct", "d", "train", "1", "me", "t"⟩, none, "c"⟩]
        "d" (some "")
      = [⟨"A", "A", 100, JsValue.meta ⟨"ai", "ct", "d", "", "1", "me", "t"⟩, none, "c"⟩] ∧
    jsonExtract (JsValue.meta ⟨"ai", "ct", "d", "train", "1", "me", "t"⟩) .split ≠ some "" := by
  decide

/-- C7 (amended): for a non-empty `datasetName` and a split that is
either absent or non-empty (JS truthiness: an empty string drops the
filter), `getLatestVersion` returns the head of the descending-by-
timestamp ordering of the lineage — a record OF the lineage whose
timestamp is maximal in it — and `null` exactly when the lineage is
empty.  Version strings are never touched. -/
theorem C7_latestVersion_max_timestamp (db : List DbRecord) (dn : String)
    (split : Option String) (hdn : dn.isEmpty = false)
    (hsplit : ∀ s ∈ split, s.isEmpty = false) :
    (AIRepository.getLatestVersion db dn split
      = .ok ((sortRows .desc (lineage db dn split)).head?.map
          fun r => ⟨r.transactionId, r.timestamp, r.tags, r.receipt⟩)) ∧
    ∀ r ∈ (sortRows .desc (lineage db dn split)).head?,
      r ∈ lineage db dn split ∧ ∀ q ∈ lineage db dn split, q.timestamp ≤ r.timestamp := by
  have hfeq : db.filter (fun r =>
      rowMatches ⟨some dn, splitFilter split, none, none, none, none, none, none⟩ r &&
        cursorClause .desc none r) = lineage db dn split := by
    show db.filter _ = db.filter _
    apply List.filter_congr
    intro r _
    cases split with
    | none =>
      simp [rowMatches, cursorClause, tagClause, splitFilter, hdn]
    | some s =>
      have hs : s.isEmpty = false := hsplit s (by simp)
      simp [rowMatches, cursorClause, tagClause, splitFilter, hdn, hs]
  constructor
  · cases hS : sortRows .desc (lineage db dn split) with
    | nil =>
      have hrec : (queryRecords db
          ⟨some dn, splitFilter split, none, none, none, none, none, none⟩ .desc 1 none).records
          = [] := by
        simp only [queryRecords, hfeq, hS]
        rfl
      simp only [AIRepository.getLatestVersion, hrec, hS]
      rfl
    | cons x rest =>
      have hx_sort : x ∈ sortRows .desc (lineage db dn split) := by rw [hS]; simp
      have hx_mem : x ∈ lineage db dn split :=
        (List.perm_insertionSort (rowLe .desc) (lineage db dn split)).mem_iff.mp hx_sort
      obtain ⟨mx, hmx⟩ : ∃ m, x.tags = .meta m := by
        have hx2 : x ∈ db.filter (fun r =>
            decide (jsonExtract r.tags .datasetName = some dn) &&
            (match split with
             | none => true
             | some s => decide (jsonExtract r.tags .split = some s))) := hx_mem
        have h1 := (Bool.and_eq_true _ _ |>.mp (List.mem_filter.mp hx2).2).1
        rw [decide_eq_true_eq] at h1
        cases htag : x.tags with
        | strLit s => rw [htag] at h1; exact absurd h1 (by simp [jsonExtract])
        | strJson v => rw [htag] at h1; exact absurd h1 (by simp [jsonExtract])
        | meta m => exact ⟨m, rfl⟩
      have hrec : (queryRecords db
          ⟨some dn, splitFilter split, none, none, none, none, none, none⟩ .desc 1 none).records
          = [x] := by
        cases rest with
        | nil => simp only [queryRecords, hfeq, hS]; rfl
        | cons y t => simp only [queryRecords, hfeq, hS]; rfl
      have hitem := toVersionItem_of_meta hmx
      simp only [AIRepository.getLatestVersion, hrec, hS, hitem, List.head?_cons,
        Option.map_some']
  · intro r hr
    cases hS : sortRows .desc (lineage db dn split) with
    | nil => rw [hS] at hr; simp at hr
    | cons x rest =>
      rw [hS] at hr
      simp only [List.head?_cons, Option.mem_def, Option.some.injEq] at hr
      have hx_mem : x ∈ lineage db dn split := by
        have hx_sort : x ∈ sortRows .desc (lineage db dn split) := by rw [hS]; simp
        exact (List.perm_insertionSort (rowLe .desc) (lineage db dn split)).mem_iff.mp hx_sort
      have hmax : ∀ q ∈ lineage db dn split, q.timestamp ≤ x.timestamp := by
        intro q hq
        have hsorted : List.Sorted (rowLe .desc) (x :: rest) := by
          rw [← hS]
          exact List.sorted_insertionSort (rowLe .desc) (lineage db dn split)
        have hq2 : q ∈ x :: rest := by
          rw [← hS]
          exact (List.perm_insertionSort (rowLe .desc) (lineage db dn split)).mem_iff.mpr hq
        rcases List.mem_cons.mp hq2 with rfl | hmem
        · exact le_refl _
        · exact (List.sorted_cons.mp hsorted).1 q hmem
      rw [← hr]
      exact ⟨hx_mem, hmax⟩

/-- Witness for C7 (amended) at a concrete two-record lineage with a
supplied non-empty split. -/
theorem C7_witness :
    AIRepository.getLatestVersion
        [⟨"A", "A", 100, JsValue.meta ⟨"ai", "ct", "d", "train", "2.0.0", "me", "t"⟩, none, "c"⟩,
         ⟨"B", "B", 200, JsValue.meta ⟨"ai", "ct", "d", "train", "1.0.0", "me", "t"⟩, none, "c"⟩]
        "d" (some "train")
      = .ok ((sortRows .desc (lineage
          [⟨"A", "A", 100, JsValue.meta ⟨"ai", "ct", "d", "train", "2.0.0", "me", "t"⟩, none, "c"⟩,
           ⟨"B", "B", 200, JsValue.meta ⟨"ai", "ct", "d", "train", "1.0.0", "me", "t"⟩, none, "c"⟩]
          "d" (some "train"))).head?.map
          fun r => ⟨r.transactionId, r.timestamp, r.tags, r.receipt⟩) :=
  (C7_latestVersion_max_timestamp
    [⟨"A", "A", 100, JsValue.meta ⟨"ai", "ct", "d", "train", "2.0.0", "me", "t"⟩, none, "c"⟩,
     ⟨"B", "B", 200, JsValue.meta ⟨"ai", "ct", "d", "train", "1.0.0", "me", "t"⟩, none, "c"⟩]
    "d" (some "train") (by decide) (by intro s hs; cases hs; decide)).1

/-! ## Pagination-completeness machinery -/

theorem rowMatches_empty (r : DbRecord) :
    rowMatches ⟨none, none, none, none, none, none, none, none⟩ r = true := rfl

theorem optionMapAll_eq_filterMap {α β : Type} (f : α → Option β) :
    ∀ l : List α, (∀ x ∈ l, (f x).isSome = true) →
      optionMapAll f l = some (l.filterMap f) := by
  intro l
  induction l with
  | nil => intro _; rfl
  | cons x xs ih =>
    intro h
    obtain ⟨y, hy⟩ := Option.isSome_iff_exists.mp (h x (by simp))
    simp only [optionMapAll, hy, ih fun a ha => h a (by simp [ha]), List.filterMap_cons]

theorem filterMap_length_of_isSome {α β : Type} (f : α → Option β) :
    ∀ l : List α, (∀ x ∈ l, (f x).isSome = true) → (l.filterMap f).length = l.length := by
  intro l
  induction l with
  | nil => intro _; rfl
  | cons x xs ih =>
    intro h
    obtain ⟨y, hy⟩ := Option.isSome_iff_exists.mp (h x (by simp))
    simp only [List.filterMap_cons, hy, List.length_cons]
    rw [ih fun a ha => h a (by simp [ha])]

theorem natToString_isEmpty (n : Nat) : (natToString n).isEmpty = false := by
  by_cases h : (natToString n).isEmpty
  · exfalso
    have hempty : natToString n = "" := (String.isEmpty_iff _).mp h
    have hdig : natToDigits n = [] := congrArg String.data hempty
    rw [natToDigits_eq_ref] at hdig
    exact natToDigitsRef_ne_nil n hdig
  · simpa using h

/-- Two sorted lists that are permutations of each other and have
pairwise-distinct timestamps are equal (antisymmetry is only needed on
members, where distinct timestamps provide it). -/
theorem eq_of_perm_of_sorted_nodup_ts (o : SortOrder) :
    ∀ (l₁ l₂ : List DbRecord), l₁.Perm l₂ → List.Sorted (rowLe o) l₁ →
      List.Sorted (rowLe o) l₂ → (l₁.map DbRecord.timestamp).Nodup → l₁ = l₂ := by
  intro l₁
  induction l₁ with
  | nil =>
    intro l₂ hp _ _ _
    exact (hp.symm.eq_nil).symm
  | cons a t₁ ih =>
    intro l₂ hp hs₁ hs₂ hnd
    cases l₂ with
    | nil => exact absurd hp.eq_nil (by simp)
    | cons b t₂ =>
      simp only [List.map_cons] at hnd
      have hnd₁ := List.nodup_cons.mp hnd
      have hab : a = b := by
        by_contra hne
        have ha₂ : a ∈ b :: t₂ := hp.mem_iff.mp (by simp)
        have hb₁ : b ∈ a :: t₁ := hp.mem_iff.mpr (by simp)
        have ha_t₂ : a ∈ t₂ := by
          rcases List.mem_cons.mp ha₂ with h | h
          · exact absurd h hne
          · exact h
        have hb_t₁ : b ∈ t₁ := by
          rcases List.mem_cons.mp hb₁ with h | h
          · exact absurd h.symm hne
          · exact h
        have h₁ : rowLe o a b := (List.sorted_cons.mp hs₁).1 b hb_t₁
        have h₂ : rowLe o b a := (List.sorted_cons.mp hs₂).1 a ha_t₂
        have hts : a.timestamp = b.timestamp := by
          cases o <;> simp only [rowLe] at h₁ h₂ <;> omega
        have hmem : b.timestamp ∈ t₁.map DbRecord.timestamp := List.mem_map_of_mem _ hb_t₁
        rw [← hts] at hmem
        exact hnd₁.1 hmem
      subst hab
      have hperm : t₁.Perm t₂ := hp.cons_inv
      rw [ih t₂ hperm (List.sorted_cons.mp hs₁).2 (List.sorted_cons.mp hs₂).2 hnd₁.2]

/-- With pairwise-distinct timestamps, filtering commutes with sorting
(SQLite's WHERE-then-ORDER-BY equals ordering the table and then
filtering). -/
theorem sortRows_filter_comm (o : SortOrder) (db : List DbRecord) (p : DbRecord → Bool)
    (hnd : (db.map DbRecord.timestamp).Nodup) :
    sortRows o (db.filter p) = (sortRows o db).filter p := by
  apply eq_of_perm_of_sorted_nodup_ts o
  · exact (List.perm_insertionSort _ _).trans ((List.perm_insertionSort (rowLe o) db).filter p).symm
  · exact List.sorted_insertionSort _ _
  · exact List.Pairwise.sublist (List.filter_sublist _) (List.sorted_insertionSort _ _)
  · have hsub : List.Sublist ((db.filter p).map DbRecord.timestamp) (db.map DbRecord.timestamp) :=
      List.Sublist.map _ (List.filter_sublist db)
    have hnd₂ : ((db.filter p).map DbRecord.timestamp).Nodup := List.Nodup.sublist hsub hnd
    exact (((List.perm_insertionSort (rowLe o) (db.filter p)).map DbRecord.timestamp).nodup_iff).mpr hnd₂

theorem sorted_desc_getLast_le :
    ∀ (A : List DbRecord) (h : A ≠ []), List.Sorted (rowLe .desc) A →
      ∀ x ∈ A, (A.getLast h).timestamp ≤ x.timestamp := by
  intro A
  induction A with
  | nil => intro h; exact absurd rfl h
  | cons a t ihA =>
    intro h hs x hx
    cases t with
    | nil =>
      simp only [List.mem_singleton] at hx
      subst hx
      exact le_refl _
    | cons b t₂ =>
      have hlast : (a :: b :: t₂).getLast h = (b :: t₂).getLast (by simp) :=
        List.getLast_cons (by simp)
      rcases List.mem_cons.mp hx with rfl | hmem
      · have hmem_last : (b :: t₂).getLast (by simp) ∈ b :: t₂ := List.getLast_mem _
        have hle := (List.sorted_cons.mp hs).1 _ hmem_last
        rw [hlast]
        exact hle
      · rw [hlast]
        exact ihA (by simp) (List.sorted_cons.mp hs).2 x hmem

/-- In a descending list of distinct timestamps split as `A ++ B` with
`A` nonempty, the rows strictly below the last timestamp of `A` are
exactly `B` — the heart of cursor pagination. -/
theorem sorted_desc_filter_lt (A B : List DbRecord) (hA : A ≠ [])
    (hsorted : List.Sorted (rowLe .desc) (A ++ B))
    (hnd : ((A ++ B).map DbRecord.timestamp).Nodup) :
    (A ++ B).filter (fun r => decide (r.timestamp < (A.getLast hA).timestamp)) = B := by
  obtain ⟨pwA, pwB, cross⟩ := List.pairwise_append.mp hsorted
  rw [List.filter_append]
  have h₁ : A.filter (fun r => decide (r.timestamp < (A.getLast hA).timestamp)) = [] := by
    apply List.filter_eq_nil_iff.mpr
    intro x hx
    have hge := sorted_desc_getLast_le A hA pwA x hx
    simp only [decide_eq_true_eq]
    omega
  have h₂ : B.filter (fun r => decide (r.timestamp < (A.getLast hA).timestamp)) = B := by
    apply List.filter_eq_self.mpr
    intro y hy
    have hle : y.timestamp ≤ (A.getLast hA).timestamp :=
      cross _ (List.getLast_mem hA) y hy
    have hne : y.timestamp ≠ (A.getLast hA).timestamp := by
      intro heq
      have hnd₂ : ((A.map DbRecord.timestamp) ++ (B.map DbRecord.timestamp)).Nodup := by
        rw [← List.map_append]
        exact hnd
      have hdis := List.disjoint_of_nodup_append hnd₂
      exact hdis (List.mem_map_of_mem _ (List.getLast_mem hA))
        (heq ▸ List.mem_map_of_mem _ hy)
    simp only [decide_eq_true_eq]
    omega
  rw [h₁, h₂]
  rfl

/-- The engine's page, computed from the sorted match sequence `M`. -/
theorem queryRecords_eq_of_sorted (db : List DbRecord) (f : QueryFilters) (o : SortOrder)
    (L : Nat) (c : Option String) (M : List DbRecord)
    (hM : sortRows o (db.filter fun r => rowMatches f r && cursorClause o c r) = M) :
    queryRecords db f o L c
      = if L < M.length
        then ⟨M.take L, (M.take L).getLast?.map fun r => natToString r.timestamp⟩
        else ⟨M, none⟩ := by
  unfold queryRecords
  rw [hM]
  by_cases h : L < M.length
  · rw [if_pos h]
    have hrows : (M.take (L + 1)).length = L + 1 := by
      rw [List.length_take]
      omega
    have hdec : decide (L < (M.take (L + 1)).length) = true := by
      rw [hrows]
      simp
    have htk : (M.take (L + 1)).take L = M.take L := by
      rw [List.take_take]
      congr 1
      omega
    simp only [hdec, if_true, htk]
    cases hlast : (M.take L).getLast? with
    | none => rfl
    | some r => rfl
  · rw [if_neg h]
    have htake : M.take (L + 1) = M := List.take_of_length_le (by omega)
    have hdec : decide (L < M.length) = false := by simpa using h
    simp only [htake, hdec, Bool.false_eq_true, if_false]

/-- One client pagination loop over the coordinator's `query` operation:
start from no cursor, collect each page's results, and feed `nextCursor`
back in until it is absent.  Fuel bounds the number of pages;
`db.length + 1` always suffices, since every page consumes at least one
remaining row. -/
def paginateAux (db : List DbRecord) (L : Option Nat) :
    Nat → Option String → Option (List QueryResultItem)
  | 0, _ => none
  | fuel + 1, c =>
    match AIRepository.queryData db ⟨none, none, L, c⟩ with
    | .error _ => none
    | .ok page =>
      match page.nextCursor with
      | none => some page.results
      | some c₂ =>
        match paginateAux db L fuel (some c₂) with
        | none => none
        | some rest => some (page.results ++ rest)

/-- The full traversal: paginate from no cursor to exhaustion. -/
def paginateAll (db : List DbRecord) (L : Option Nat) : Option (List QueryResultItem) :=
  paginateAux db L (db.length + 1) none

theorem paginateAux_eq (db : List DbRecord) (L : Option Nat)
    (hnd : (db.map DbRecord.timestamp).Nodup)
    (hparse : ∀ r ∈ db, (toQueryResult r).isSome = true) :
    ∀ (fuel : Nat) (c : Option String),
      ((sortRows .desc db).filter (cursorClause .desc c)).length < fuel →
      paginateAux db L fuel c
        = some (((sortRows .desc db).filter (cursorClause .desc c)).filterMap toQueryResult) := by
  intro fuel
  induction fuel with
  | zero => intro c h; omega
  | succ fuel ih =>
    intro c hlen
    have hL2pos : 1 ≤ jsNumOr L 50 := jsNumOr_pos L 50 (by omega)
    have hmatch : db.filter (fun r =>
        rowMatches ⟨none, none, none, none, none, none, none, none⟩ r
          && cursorClause .desc c r) = db.filter (cursorClause .desc c) := by
      apply List.filter_congr
      intro r _
      rw [rowMatches_empty]
      exact Bool.true_and _
    have hsorted_eq : sortRows .desc (db.filter fun r =>
        rowMatches ⟨none, none, none, none, none, none, none, none⟩ r
          && cursorClause .desc c r)
        = (sortRows .desc db).filter (cursorClause .desc c) := by
      rw [hmatch]
      exact sortRows_filter_comm .desc db _ hnd
    set R := (sortRows .desc db).filter (cursorClause .desc c) with hR
    have hRsubS : ∀ r ∈ R, r ∈ db := by
      intro r hr
      have h₁ : r ∈ sortRows .desc db := (List.mem_filter.mp hr).1
      exact (List.perm_insertionSort (rowLe .desc) db).mem_iff.mp h₁
    have hparseR : ∀ r ∈ R, (toQueryResult r).isSome = true :=
      fun r hr => hparse r (hRsubS r hr)
    have hqr := queryRecords_eq_of_sorted db ⟨none, none, none, none, none, none, none, none⟩
      .desc (jsNumOr L 50) c R hsorted_eq
    by_cases hmore : jsNumOr L 50 < R.length
    · -- a full page plus a cursor
      rw [if_pos hmore] at hqr
      have hAne : R.take (jsNumOr L 50) ≠ [] := by
        intro hempty
        have : (R.take (jsNumOr L 50)).length = 0 := by rw [hempty]; rfl
        rw [List.length_take] at this
        omega
      have hgl : (R.take (jsNumOr L 50)).getLast?
          = some ((R.take (jsNumOr L 50)).getLast hAne) :=
        List.getLast?_eq_getLast _ hAne
      set tlast := ((R.take (jsNumOr L 50)).getLast hAne).timestamp with htlast
      have hqr₂ : queryRecords db ⟨none, none, none, none, none, none, none, none⟩
          .desc (jsNumOr L 50) c
          = ⟨R.take (jsNumOr L 50), some (natToString tlast)⟩ := by
        rw [hqr, hgl]
        rfl
      have hqd : AIRepository.queryData db ⟨none, none, L, c⟩
          = .ok ⟨(R.take (jsNumOr L 50)).filterMap toQueryResult, some (natToString tlast)⟩ := by
        simp only [AIRepository.queryData, Option.getD_none, hqr₂]
        rw [optionMapAll_eq_filterMap _ _
          fun r hr => hparseR r (List.mem_of_mem_take hr)]
      -- the next page's source is exactly the dropped remainder
      have hsortedR : List.Sorted (rowLe .desc) R :=
        List.Pairwise.sublist (List.filter_sublist _) (List.sorted_insertionSort _ _)
      have hndR : (R.map DbRecord.timestamp).Nodup := by
        have hsub : List.Sublist (R.map DbRecord.timestamp)
            ((sortRows .desc db).map DbRecord.timestamp) :=
          List.Sublist.map _ (List.filter_sublist _)
        have hndS : ((sortRows .desc db).map DbRecord.timestamp).Nodup :=
          (((List.perm_insertionSort (rowLe .desc) db).map DbRecord.timestamp).nodup_iff).mpr hnd
        exact List.Nodup.sublist hsub hndS
      have hsplit : R.take (jsNumOr L 50) ++ R.drop (jsNumOr L 50) = R :=
        List.take_append_drop _ R
      have hfiltR : R.filter (fun r => decide (r.timestamp < tlast)) = R.drop (jsNumOr L 50) := by
        conv_lhs => rw [← hsplit]
        rw [htlast]
        exact sorted_desc_filter_lt (R.take (jsNumOr L 50)) (R.drop (jsNumOr L 50)) hAne
          (by rw [hsplit]; exact hsortedR) (by rw [hsplit]; exact hndR)
      have hcc_down : ∀ r : DbRecord, r.timestamp < tlast → cursorClause .desc c r = true := by
        intro r hr
        have hx₀ : (R.take (jsNumOr L 50)).getLast hAne ∈ R :=
          List.mem_of_mem_take (List.getLast_mem hAne)
        have hccx₀ : cursorClause .desc c ((R.take (jsNumOr L 50)).getLast hAne) = true :=
          (List.mem_filter.mp hx₀).2
        cases c with
        | none => rfl
        | some s =>
          unfold cursorClause at hccx₀ ⊢
          by_cases hs : s.isEmpty
          · simp [hs]
          · simp only [hs, Bool.false_eq_true, if_false] at hccx₀ ⊢
            cases hp : jsParseInt s with
            | none => rw [hp] at hccx₀; exact absurd hccx₀ (by simp)
            | some n =>
              rw [hp] at hccx₀
              simp only [decide_eq_true_eq] at hccx₀
              simp only [decide_eq_true_eq]
              omega
      have hR' : (sortRows .desc db).filter (cursorClause .desc (some (natToString tlast)))
          = R.drop (jsNumOr L 50) := by
        have hpt : ∀ r ∈ sortRows .desc db,
            cursorClause .desc (some (natToString tlast)) r
              = (decide (r.timestamp < tlast) && cursorClause .desc c r) := by
          intro r _
          rw [cursorClause_some .desc (natToString tlast) tlast r
            (jsParseInt_natToString tlast) (natToString_isEmpty tlast)]
          by_cases hlt : r.timestamp < tlast
          · rw [hcc_down r hlt]
            simp [hlt]
          · simp [hlt]
        rw [List.filter_congr hpt, ← List.filter_filter, ← hR, hfiltR]
      have hdroplen : (R.drop (jsNumOr L 50)).length < fuel := by
        rw [List.length_drop]
        omega
      have hrec := ih (some (natToString tlast)) (by rw [hR']; exact hdroplen)
      rw [hR'] at hrec
      show (match AIRepository.queryData db ⟨none, none, L, c⟩ with
        | .error _ => none
        | .ok page =>
          match page.nextCursor with
          | none => some page.results
          | some c₂ =>
            match paginateAux db L fuel (some c₂) with
            | none => none
            | some rest => some (page.results ++ rest)) = _
      rw [hqd]
      show (match paginateAux db L fuel (some (natToString tlast)) with
        | none => none
        | some rest => some ((R.take (jsNumOr L 50)).filterMap toQueryResult ++ rest)) = _
      rw [hrec]
      show some ((R.take (jsNumOr L 50)).filterMap toQueryResult
        ++ (R.drop (jsNumOr L 50)).filterMap toQueryResult) = _
      rw [← List.filterMap_append, hsplit]
    · -- the final page
      rw [if_neg hmore] at hqr
      have hqd : AIRepository.queryData db ⟨none, none, L, c⟩
          = .ok ⟨R.filterMap toQueryResult, none⟩ := by
        simp only [AIRepository.queryData, Option.getD_none, hqr]
        rw [optionMapAll_eq_filterMap _ _ hparseR]
      show (match AIRepository.queryData db ⟨none, none, L, c⟩ with
        | .error _ => none
        | .ok page =>
          match page.nextCursor with
          | none => some page.results
          | some c₂ =>
            match paginateAux db L fuel (some c₂) with
            | none => none
            | some rest => some (page.results ++ rest)) = _
      rw [hqd]

/-- C5: on a table of N records with pairwise-distinct timestamps (whose
tags are JSON-parseable, as every value this system stores is),
for every page limit L — any number, or omitted — iterating `query` from
no cursor and feeding each page's `nextCursor` back in until it is
absent succeeds and yields exactly the N stored records, each exactly
once: the collected results are the full descending-timestamp
enumeration of the table, a permutation of the table's rows mapped to
the result shape, with one result per stored row. -/
theorem C5_pagination_completeness (db : List DbRecord) (L : Option Nat)
    (hnd : (db.map DbRecord.timestamp).Nodup)
    (hparse : ∀ r ∈ db, (toQueryResult r).isSome = true) :
    paginateAll db L = some ((sortRows .desc db).filterMap toQueryResult) ∧
    ((sortRows .desc db).filterMap toQueryResult).Perm (db.filterMap toQueryResult) ∧
    (db.filterMap toQueryResult).length = db.length := by
  have hfilter_true : (sortRows .desc db).filter (cursorClause .desc none)
      = sortRows .desc db := by
    apply List.filter_eq_self.mpr
    intro r _
    rfl
  refine ⟨?_, ?_, ?_⟩
  · unfold paginateAll
    have hlen : ((sortRows .desc db).filter (cursorClause .desc none)).length < db.length + 1 := by
      rw [hfilter_true]
      have hlen₂ : (sortRows .desc db).length = db.length :=
        (List.perm_insertionSort (rowLe .desc) db).length_eq
      omega
    have hmain := paginateAux_eq db L hnd hparse (db.length + 1) none hlen
    rw [hfilter_true] at hmain
    exact hmain
  · exact List.Perm.filterMap toQueryResult (List.perm_insertionSort (rowLe .desc) db)
  · exact filterMap_length_of_isSome _ db hparse

/-- Witness for C5 at a 3-record table with limit 2 (two pages: 2 rows
then 1 row). -/
theorem C5_witness :
    paginateAll
        [⟨"a", "a", 1, JsValue.meta ⟨"ai", "ct", "d", "s", "1", "me", "t"⟩, none, "c"⟩,
         ⟨"b", "b", 2, JsValue.meta ⟨"ai", "ct", "d", "s", "1", "me", "t"⟩, none, "c"⟩,
         ⟨"c", "c", 3, JsValue.meta ⟨"ai", "ct", "d", "s", "1", "me", "t"⟩, none, "c"⟩]
        (some 2)
      = some ((sortRows .desc
          [⟨"a", "a", 1, JsValue.meta ⟨"ai", "ct", "d", "s", "1", "me", "t"⟩, none, "c"⟩,
           ⟨"b", "b", 2, JsValue.meta ⟨"ai", "ct", "d", "s", "1", "me", "t"⟩, none, "c"⟩,
           ⟨"c", "c", 3, JsValue.meta ⟨"ai", "ct", "d", "s", "1", "me", "t"⟩, none, "c"⟩]).filterMap
          toQueryResult) :=
  (C5_pagination_completeness
    [⟨"a", "a", 1, JsValue.meta ⟨"ai", "ct", "d", "s", "1", "me", "t"⟩, none, "c"⟩,
     ⟨"b", "b", 2, JsValue.meta ⟨"ai", "ct", "d", "s", "1", "me", "t"⟩, none, "c"⟩,
     ⟨"c", "c", 3, JsValue.meta ⟨"ai", "ct", "d", "s", "1", "me", "t"⟩, none, "c"⟩]
    (some 2) (by decide) (by decide)).1

end DataVault
